import Mathlib

/-
Verification of the Indibot chess agent (Bot.py) against its
natural-language specification.

The Python source is shallowly embedded:
- `classic_ladder_think_time` (the Time Allocator) is a pure function on ℚ
  (seconds / milliseconds are exact rationals; the Python floats here only
  ever combine decimal constants, so ℚ is the faithful idealisation);
- the per-game event loop of `handle_game` becomes an explicit step
  function `gameStep` over a `SessionState`, parameterised by a `ChessApi`
  record that stands for the external chess library, engine, opening books
  and tablebases (all declared out of scope by the spec);
- the engine pool (`get_engine` / `release_engine` plus the `finally`
  block of `handle_game`) becomes a FIFO queue of `EngineWorker`s;
- the challenge listener's per-challenge handling becomes `challengeStep`.
-/

set_option maxHeartbeats 3200000

namespace Indibot

/-- Time Allocator, translated from `classic_ladder_think_time` in Bot.py.
`my_remaining_time` is in milliseconds, `increment` in seconds; the result
is the think time in seconds. -/
def classic_ladder_think_time (my_remaining_time : ℚ) (increment : ℚ) : ℚ :=
  let time_left := max (my_remaining_time / 1000) 0
  let time_left := max (time_left - 2) (5/100)
  let think_time : ℚ :=
    if 3 ≤ increment then min (time_left * (4/100) + increment * (25/100)) 60
    else if 0 < increment then min (time_left * (25/1000) + increment * (18/100)) 10
    else if 900 < time_left then 30
    else if 600 < time_left then 20
    else if 300 < time_left then 10
    else if 180 < time_left then 5
    else if 120 < time_left then 2
    else if 90 < time_left then 12/10
    else if 60 < time_left then 8/10
    else if 30 < time_left then 5/10
    else if 10 < time_left then 2/10
    else if 5 < time_left then 1/10
    else 5/100
  max (5/100) (min think_time 60)

/-- Claim C3, counterexample.  At `remaining_ms = 0` with increment 3 the
allocator returns 0.752 s: this is neither at most the remaining time minus
the 2 s safety buffer (which would be −2 s) nor equal to the 0.05 s floor,
refuting two of the three conjuncts of the claim at one concrete input. -/
theorem C3_time_bounds_counterexample :
    classic_ladder_think_time 0 3 = 752/1000 ∧
    ¬ classic_ladder_think_time 0 3 ≤ (0 : ℚ)/1000 - 2 ∧
    classic_ladder_think_time 0 3 ≠ 5/100 := by
  refine ⟨?_, ?_, ?_⟩ <;>
    · unfold classic_ladder_think_time
      norm_num [max_def, min_def]

/-- Claim C3, amended.  For all valid inputs (`0 ≤ remaining_ms`,
`0 ≤ increment`) the allocator's result lies within the floor/ceiling
bounds [0.05 s, 60 s]; with zero increment it is additionally at most
`max (remaining_s − 2, 0.05)` (so the "remaining minus buffer" bound only
holds up to the floor, and only without an increment bonus); and at
`remaining_ms = 0` it returns exactly the floor provided the increment is
zero. -/
theorem C3_time_bounds_amended (r i : ℚ) (hr : 0 ≤ r) (hi : 0 ≤ i) :
    (5/100 : ℚ) ≤ classic_ladder_think_time r i ∧
    classic_ladder_think_time r i ≤ 60 ∧
    (i = 0 → classic_ladder_think_time r i ≤ max (r / 1000 - 2) (5/100)) ∧
    (r = 0 → i = 0 → classic_ladder_think_time r i = 5/100) := by
  have hmax : max (r / 1000) 0 = r / 1000 := max_eq_left (by positivity)
  refine ⟨le_max_left _ _, max_le (by norm_num) (min_le_right _ _), ?_, ?_⟩
  · intro h0
    subst h0
    simp only [classic_ladder_think_time, hmax]
    rw [if_neg (by norm_num : ¬ (3:ℚ) ≤ 0), if_neg (by norm_num : ¬ (0:ℚ) < 0)]
    have h1 : (5/100 : ℚ) ≤ max (r / 1000 - 2) (5/100) := le_max_right _ _
    refine max_le h1 (le_trans (min_le_left _ _) ?_)
    split_ifs <;> linarith
  · intro hr0 hi0
    subst hr0; subst hi0
    unfold classic_ladder_think_time; norm_num [max_def, min_def]

/-- Claim C3, witness for the amended theorem at `r = 0`, `i = 0`. -/
theorem C3_time_bounds_witness :
    (5/100 : ℚ) ≤ classic_ladder_think_time 0 0 ∧
    classic_ladder_think_time 0 0 ≤ 60 ∧
    classic_ladder_think_time 0 0 = 5/100 := by
  obtain ⟨h1, h2, _, h4⟩ := C3_time_bounds_amended 0 0 le_rfl le_rfl
  exact ⟨h1, h2, h4 rfl rfl⟩

/-- Claim C9, counterexample.  With 1000 s remaining, increment 1 yields a
10 s allocation (the small-increment formula is capped at 10 s) while the
otherwise-identical zero-increment call yields 30 s: a positive increment
gives a strictly SMALLER allocation, refuting the claim. -/
theorem C9_increment_counterexample :
    classic_ladder_think_time 1000000 1 < classic_ladder_think_time 1000000 0 ∧
    classic_ladder_think_time 1000000 1 = 10 ∧
    classic_ladder_think_time 1000000 0 = 30 := by
  have h1 : classic_ladder_think_time 1000000 1 = 10 := by
    unfold classic_ladder_think_time; norm_num [max_def, min_def]
  have h0 : classic_ladder_think_time 1000000 0 = 30 := by
    unfold classic_ladder_think_time; norm_num [max_def, min_def]
  exact ⟨by rw [h1, h0]; norm_num, h1, h0⟩

/-- Claim C9, amended.  An increment of at least 3 s strictly increases the
allocation relative to the otherwise-identical zero-increment call, for
every remaining time.  (For increments of 1 or 2 s the formula is capped at
10 s and can fall below the zero-increment ladder, see the
counterexample.) -/
theorem C9_increment_amended (r i : ℚ) (hi : 3 ≤ i) :
    classic_ladder_think_time r 0 < classic_ladder_think_time r i := by
  simp only [classic_ladder_think_time]
  rw [if_neg (by norm_num : ¬ (3:ℚ) ≤ 0), if_neg (by norm_num : ¬ (0:ℚ) < 0),
    if_pos hi]
  have h05 : (5/100 : ℚ) ≤ max (max (r / 1000) 0 - 2) (5/100) := le_max_right _ _
  set tl := max (max (r / 1000) 0 - 2) (5/100) with htl
  have hx : (752/1000 : ℚ) ≤ tl * (4/100) + i * (25/100) := by nlinarith
  have hX5 : (5/100 : ℚ) ≤ min (min (tl * (4/100) + i * (25/100)) 60) 60 :=
    le_min (le_min (by linarith) (by norm_num)) (by norm_num)
  rw [max_eq_right hX5, lt_min_iff, lt_min_iff]
  refine ⟨⟨?_, ?_⟩, ?_⟩
  · rw [max_lt_iff]
    refine ⟨by linarith, lt_of_le_of_lt (min_le_left _ _) ?_⟩
    split_ifs <;> linarith
  · rw [max_lt_iff]
    refine ⟨by norm_num, lt_of_le_of_lt (min_le_left _ _) ?_⟩
    split_ifs <;> norm_num
  · rw [max_lt_iff]
    refine ⟨by norm_num, lt_of_le_of_lt (min_le_left _ _) ?_⟩
    split_ifs <;> norm_num

/-- Claim C9, witness for the amended theorem at `r = 300000`, `i = 3`. -/
theorem C9_increment_witness :
    classic_ladder_think_time 300000 0 < classic_ladder_think_time 300000 3 :=
  C9_increment_amended 300000 3 le_rfl

/-! ### External chess interface

Chess rules, the UCI engine, the opening books and the Syzygy tablebases are
external to Bot.py (the spec places them out of scope and fixes only their
interface), so they are modelled as a record of abstract operations over an
abstract position type.  Moves are UCI strings, as in the source. -/

/-- Wdl/dtz data returned by a tablebase probe for one candidate move. -/
structure SyzygyInfo where
  wdl : Int
  dtz : Option Int
deriving DecidableEq

/-- An engine evaluation as seen from one side (python-chess PovScore). -/
inductive PovScore where
  | mate (n : Int)
  | cp (c : Int)
deriving DecidableEq

/-- The result of engine.analyse: the score from each point of view. -/
structure EngineScore where
  white : PovScore
  black : PovScore
deriving DecidableEq

/-- The external interface used by Bot.py: the python-chess board operations,
the Syzygy probe, the polyglot book readers (as the entry lists that
`find_all` yields for the given position), the engine search and the engine
analyse call.  `Pos` is the abstract board state. -/
structure ChessApi (Pos : Type) where
  turnWhite : Pos → Bool
  isGameOver : Pos → Bool
  isValid : Pos → Bool
  pieceCount : Pos → Nat
  fullmoveNumber : Pos → Nat
  initBoard : Pos
  board960 : String → Pos
  pushUci : Pos → String → Option Pos
  syzygyLoaded : Bool
  probeRoot : Pos → Option (List (String × SyzygyInfo))
  bookEntries : Pos → List (List (String × Int))
  engineMove : Pos → ℚ → Option String
  analyse : Pos → Option EngineScore

/-! ### Move Decision Pipeline (get_syzygy_move, get_polyglot_move, fallback) -/

/-- `wdl = info.wdl if board.turn == chess.WHITE else -info.wdl` -/
def signedWdl (white : Bool) (info : SyzygyInfo) : Int :=
  if white then info.wdl else -info.wdl

/-- `dtz = -info.dtz() if info.dtz() is not None else 0` -/
def dtzValue (info : SyzygyInfo) : Int :=
  match info.dtz with
  | some d => -d
  | none => 0

/-- `score = (wdl * 1000) + dtz` -/
def syzygyScore (white : Bool) (info : SyzygyInfo) : Int :=
  signedWdl white info * 1000 + dtzValue info

/-- The probe-root selection loop of `get_syzygy_move`, with the running
best pair as accumulator.  The Python loop starts from
`best_score = -inf`, so the first candidate always replaces the initial
accumulator; `bestFrom` is the loop after that first replacement. -/
def bestFrom (white : Bool) (m : String) (s : Int) :
    List (String × SyzygyInfo) → String × Int
  | [] => (m, s)
  | p :: rest =>
    if syzygyScore white p.2 > s then bestFrom white p.1 (syzygyScore white p.2) rest
    else bestFrom white m s rest

/-- The whole selection loop of `get_syzygy_move` over the probe list. -/
def syzygyBest (white : Bool) : List (String × SyzygyInfo) → Option String
  | [] => none
  | p :: rest => some (bestFrom white p.1 (syzygyScore white p.2) rest).1

/-- `get_syzygy_move` from Bot.py.  `probeRoot` returning `none` models the
probe raising (the `except` path). -/
def get_syzygy_move {Pos : Type} (api : ChessApi Pos) (board : Pos) :
    Option String :=
  if ¬ api.syzygyLoaded ∨ api.pieceCount board ≠ 5 ∨ ¬ api.isValid board ∨
      api.isGameOver board then none
  else
    match api.probeRoot board with
    | none => none
    | some entries => syzygyBest (api.turnWhite board) entries

/-- `get_polyglot_move` from Bot.py: fold over every reader's entries,
keeping the strictly greatest weight, starting from `best_weight = -1`. -/
def get_polyglot_move (readers : List (List (String × Int))) : Option String :=
  let best := readers.foldl
    (fun acc reader => reader.foldl
      (fun acc entry => if entry.2 > acc.2 then (some entry.1, entry.2) else acc)
      acc)
    ((none : Option String), (-1 : Int))
  best.1

/-- The tiered fallback of `handle_game` (lines 298-304): syzygy only when
five pieces remain, then book, then engine. -/
def movePipeline {Pos : Type} (api : ChessApi Pos) (board : Pos) (think : ℚ) :
    Option String :=
  let move0 := if api.pieceCount board = 5 then get_syzygy_move api board else none
  let move1 :=
    match move0 with
    | none => get_polyglot_move (api.bookEntries board)
    | some m => some m
  match move1 with
  | none => api.engineMove board think
  | some m => some m

/-- Claim C1: the pipeline returns the candidate of the highest-priority
eligible non-empty stage.  The tablebase stage yields a move only when the
tablebase is loaded, exactly five pieces remain, the position is valid and
the game is not over; a tablebase candidate is always returned; a book
candidate is returned exactly when the tablebase stage is empty; the engine
is consulted exactly when both earlier stages are empty. -/
theorem C1_pipeline_priority {Pos : Type} (api : ChessApi Pos) (b : Pos)
    (think : ℚ) :
    (∀ m, get_syzygy_move api b = some m →
      api.syzygyLoaded = true ∧ api.pieceCount b = 5 ∧
      api.isValid b = true ∧ api.isGameOver b = false) ∧
    (∀ m, get_syzygy_move api b = some m → movePipeline api b think = some m) ∧
    (get_syzygy_move api b = none →
      ∀ m, get_polyglot_move (api.bookEntries b) = some m →
        movePipeline api b think = some m) ∧
    (get_syzygy_move api b = none →
      get_polyglot_move (api.bookEntries b) = none →
      movePipeline api b think = api.engineMove b think) := by
  have hguard : ∀ m, get_syzygy_move api b = some m →
      api.syzygyLoaded = true ∧ api.pieceCount b = 5 ∧
      api.isValid b = true ∧ api.isGameOver b = false := by
    intro m h
    unfold get_syzygy_move at h
    by_cases hg : (¬ api.syzygyLoaded ∨ api.pieceCount b ≠ 5 ∨ ¬ api.isValid b ∨
        api.isGameOver b)
    · rw [if_pos hg] at h
      exact Option.noConfusion h
    · rw [if_neg hg] at h
      push_neg at hg
      obtain ⟨h1, h2, h3, h4⟩ := hg
      refine ⟨by simpa using h1, h2, by simpa using h3, by simpa using h4⟩
  refine ⟨hguard, ?_, ?_, ?_⟩
  · intro m h
    obtain ⟨_, h5, _, _⟩ := hguard m h
    simp [movePipeline, h5, h]
  · intro hsz m hbook
    simp [movePipeline, hsz, hbook]
  · intro hsz hbook
    simp [movePipeline, hsz, hbook]

/-- Characterisation of the selection loop: starting from the running best
`(m, s)`, the fold either keeps `(m, s)` and every remaining score is at
most `s`, or it returns a candidate from the list which strictly beats `s`,
weakly dominates every score of the list, and strictly dominates every
score encountered before it (the first-encountered maximum). -/
lemma bestFrom_spec (white : Bool) :
    ∀ (l : List (String × SyzygyInfo)) (m : String) (s : Int),
      (bestFrom white m s l = (m, s) ∧
        ∀ p ∈ l, syzygyScore white p.2 ≤ s) ∨
      (∃ l1 p l2, l = l1 ++ p :: l2 ∧
        bestFrom white m s l = (p.1, syzygyScore white p.2) ∧
        s < syzygyScore white p.2 ∧
        (∀ q ∈ l, syzygyScore white q.2 ≤ syzygyScore white p.2) ∧
        (∀ q ∈ l1, syzygyScore white q.2 < syzygyScore white p.2))
  | [], m, s => .inl ⟨rfl, by simp⟩
  | p0 :: rest, m, s => by
    by_cases hgt : syzygyScore white p0.2 > s
    · have hstep : bestFrom white m s (p0 :: rest) =
          bestFrom white p0.1 (syzygyScore white p0.2) rest := by
        simp only [bestFrom]; rw [if_pos hgt]
      rcases bestFrom_spec white rest p0.1 (syzygyScore white p0.2) with
        ⟨heq, hall⟩ | ⟨l1, q, l2, hsplit, heq, hlt, hall, hfirst⟩
      · refine .inr ⟨[], p0, rest, by simp, ?_, hgt, ?_, by simp⟩
        · rw [hstep, heq]
        · intro x hx
          rcases List.mem_cons.mp hx with hx | hx
          · subst hx; exact le_refl _
          · exact hall x hx
      · refine .inr ⟨p0 :: l1, q, l2, by simp [hsplit], ?_, lt_trans hgt hlt, ?_, ?_⟩
        · rw [hstep, heq]
        · intro x hx
          rcases List.mem_cons.mp hx with hx | hx
          · subst hx; exact le_of_lt hlt
          · exact hall x hx
        · intro x hx
          rcases List.mem_cons.mp hx with hx | hx
          · subst hx; exact hlt
          · exact hfirst x hx
    · have hstep : bestFrom white m s (p0 :: rest) = bestFrom white m s rest := by
        simp only [bestFrom]; rw [if_neg hgt]
      push_neg at hgt
      rcases bestFrom_spec white rest m s with
        ⟨heq, hall⟩ | ⟨l1, q, l2, hsplit, heq, hlt, hall, hfirst⟩
      · refine .inl ⟨by rw [hstep, heq], ?_⟩
        intro x hx
        rcases List.mem_cons.mp hx with hx | hx
        · subst hx; exact hgt
        · exact hall x hx
      · refine .inr ⟨p0 :: l1, q, l2, by simp [hsplit], by rw [hstep, heq],
          hlt, ?_, ?_⟩
        · intro x hx
          rcases List.mem_cons.mp hx with hx | hx
          · subst hx; exact le_trans hgt (le_of_lt hlt)
          · exact hall x hx
        · intro x hx
          rcases List.mem_cons.mp hx with hx | hx
          · subst hx; exact lt_of_le_of_lt hgt hlt
          · exact hfirst x hx

/-- A distance-to-zero magnitude below 1000, so that the wdl*1000 scaling
dominates it.  True of every real (five-piece) Syzygy table. -/
def dtzBounded (info : SyzygyInfo) : Prop :=
  match info.dtz with
  | some d => -1000 < d ∧ d < 1000
  | none => True

/-- Claim C4, amended.  On a non-empty probe list the tablebase stage
selects a candidate that weakly dominates every candidate's score
`signedWdl * 1000 + dtzValue` and strictly dominates everything encountered
before it (first-encountered tie-break); and PROVIDED every candidate's
distance-to-zero magnitude is below 1000, the presence of a true-win
candidate (signed wdl 2) forces the selected move to have a winning signed
wdl (≥ 1) — the claim's "regardless of the distance-to-zero values" only
holds under that bound, see the counterexample. -/
theorem C4_syzygy_scoring_amended (white : Bool)
    (l : List (String × SyzygyInfo)) (hne : l ≠ []) :
    ∃ l1 p l2, l = l1 ++ p :: l2 ∧
      syzygyBest white l = some p.1 ∧
      (∀ q ∈ l, syzygyScore white q.2 ≤ syzygyScore white p.2) ∧
      (∀ q ∈ l1, syzygyScore white q.2 < syzygyScore white p.2) ∧
      ((∀ q ∈ l, dtzBounded q.2) → (∃ q ∈ l, signedWdl white q.2 = 2) →
        1 ≤ signedWdl white p.2) := by
  obtain ⟨p0, rest, rfl⟩ := List.exists_cons_of_ne_nil hne
  have hbest : syzygyBest white (p0 :: rest) =
      some (bestFrom white p0.1 (syzygyScore white p0.2) rest).1 := rfl
  have hdtz : ∀ q : String × SyzygyInfo, dtzBounded q.2 →
      -1000 < dtzValue q.2 ∧ dtzValue q.2 < 1000 := by
    intro q hq
    unfold dtzBounded at hq
    unfold dtzValue
    rcases hdq : q.2.dtz with _ | d <;> simp only [hdq] at hq ⊢ <;> omega
  have hwin : ∀ (p : String × SyzygyInfo),
      (∀ q ∈ p0 :: rest, syzygyScore white q.2 ≤ syzygyScore white p.2) →
      (∀ q ∈ p0 :: rest, dtzBounded q.2) →
      (∃ q ∈ p0 :: rest, signedWdl white q.2 = 2) →
      dtzBounded p.2 → 1 ≤ signedWdl white p.2 := by
    intro p hmax hb hex hbp
    obtain ⟨q, hq, hq2⟩ := hex
    have h1 := hmax q hq
    have h2 := hdtz q (hb q hq)
    have h3 := hdtz p hbp
    unfold syzygyScore at h1
    rw [hq2] at h1
    omega
  rcases bestFrom_spec white rest p0.1 (syzygyScore white p0.2) with
    ⟨heq, hall⟩ | ⟨l1, q, l2, hsplit, heq, hlt, hall, hfirst⟩
  · refine ⟨[], p0, rest, by simp, ?_, ?_, by simp, ?_⟩
    · rw [hbest, heq]
    · intro x hx
      rcases List.mem_cons.mp hx with hx | hx
      · subst hx; exact le_refl _
      · exact hall x hx
    · intro hb hex
      refine hwin p0 ?_ hb hex (hb p0 (by simp))
      intro x hx
      rcases List.mem_cons.mp hx with hx | hx
      · subst hx; exact le_refl _
      · exact hall x hx
  · have hmax : ∀ x ∈ p0 :: rest, syzygyScore white x.2 ≤ syzygyScore white q.2 := by
      intro x hx
      rcases List.mem_cons.mp hx with hx | hx
      · subst hx; exact le_of_lt hlt
      · exact hall x hx
    have hqmem : q ∈ p0 :: rest := by
      rw [hsplit]
      exact List.mem_cons_of_mem p0 (by simp)
    refine ⟨p0 :: l1, q, l2, by simp [hsplit], by rw [hbest, heq], hmax, ?_, ?_⟩
    · intro x hx
      rcases List.mem_cons.mp hx with hx | hx
      · subst hx; exact hlt
      · exact hfirst x hx
    · intro hb hex
      exact hwin q hmax hb hex (hb q hqmem)

/-! ### Concrete instantiation used by witnesses and counterexamples -/

/-- A small concrete stand-in for the external chess library: the side to
move alternates with the length of the pushed-move stack, the remaining
fields are explicit data. -/
structure DemoPos where
  stack : List String
  pieces : Nat
  over : Bool
  valid : Bool
  fullmove : Nat
deriving DecidableEq

/-- Pushing a UCI move on a demo board; the move "bad" is illegal (raises). -/
def demoPush (p : DemoPos) (m : String) : Option DemoPos :=
  if m = "bad" then none else some { p with stack := p.stack ++ [m] }

/-- Demo chess interface with no tablebase, no books and a silent engine. -/
def baseApi : ChessApi DemoPos where
  turnWhite p := p.stack.length % 2 == 0
  isGameOver p := p.over
  isValid p := p.valid
  pieceCount p := p.pieces
  fullmoveNumber p := p.fullmove
  initBoard := ⟨[], 32, false, true, 1⟩
  board960 fen := ⟨[fen], 32, false, true, 1⟩
  pushUci := demoPush
  syzygyLoaded := false
  probeRoot _ := none
  bookEntries _ := []
  engineMove _ _ := none
  analyse _ := none

/-- A five-piece, valid, in-progress endgame position, white to move. -/
def tbBoard : DemoPos := ⟨[], 5, false, true, 40⟩

/-- Demo interface with a loaded tablebase whose probe reports a winning
move (wdl 2) with a huge distance-to-zero and a drawing move (wdl 0). -/
def tbApi : ChessApi DemoPos :=
  { baseApi with
      syzygyLoaded := true
      probeRoot := fun _ =>
        some [("g1g2", ⟨2, some 2500⟩), ("g1h1", ⟨0, some 0⟩)] }

/-- Claim C4, counterexample.  With a win-class candidate (signed wdl 2)
whose distance-to-zero is 2500 and a draw-class candidate (signed wdl 0),
the tablebase stage scores them −500 and 0 and selects the DRAW move: the
win-class move is not selected "regardless of the distance-to-zero
values". -/
theorem C4_syzygy_counterexample :
    get_syzygy_move tbApi tbBoard = some "g1h1" ∧
    tbApi.probeRoot tbBoard =
      some [("g1g2", ⟨2, some 2500⟩), ("g1h1", ⟨0, some 0⟩)] ∧
    signedWdl (tbApi.turnWhite tbBoard) ⟨2, some 2500⟩ = 2 ∧
    signedWdl (tbApi.turnWhite tbBoard) ⟨0, some 0⟩ = 0 := by
  refine ⟨?_, ?_, ?_, ?_⟩ <;> rfl

/-- Claim C4, witness for the amended theorem on a bounded-dtz probe list
containing a win and a draw: the selected move is the win. -/
theorem C4_syzygy_scoring_witness :
    ∃ l1 p l2,
      [("a1a2", (⟨2, some 3⟩ : SyzygyInfo)), ("a1b1", ⟨0, some 0⟩)] =
        l1 ++ p :: l2 ∧
      syzygyBest true [("a1a2", ⟨2, some 3⟩), ("a1b1", ⟨0, some 0⟩)] =
        some p.1 ∧
      (∀ q ∈ [("a1a2", (⟨2, some 3⟩ : SyzygyInfo)), ("a1b1", ⟨0, some 0⟩)],
        syzygyScore true q.2 ≤ syzygyScore true p.2) ∧
      (∀ q ∈ l1, syzygyScore true q.2 < syzygyScore true p.2) ∧
      ((∀ q ∈ [("a1a2", (⟨2, some 3⟩ : SyzygyInfo)), ("a1b1", ⟨0, some 0⟩)],
          dtzBounded q.2) →
        (∃ q ∈ [("a1a2", (⟨2, some 3⟩ : SyzygyInfo)), ("a1b1", ⟨0, some 0⟩)],
          signedWdl true q.2 = 2) →
        1 ≤ signedWdl true p.2) :=
  C4_syzygy_scoring_amended true
    [("a1a2", ⟨2, some 3⟩), ("a1b1", ⟨0, some 0⟩)] (by simp)

/-- Claim C1, witness: on the demo tablebase position the syzygy stage is
non-empty and the pipeline returns its candidate. -/
theorem C1_pipeline_priority_witness :
    get_syzygy_move tbApi tbBoard = some "g1h1" ∧
    movePipeline tbApi tbBoard 1 = some "g1h1" :=
  ⟨rfl, (C1_pipeline_priority tbApi tbBoard 1).2.1 "g1h1" rfl⟩

/-! ### Engine Worker Pool (C2) -/

/-- One pooled engine handle; `alive = false` is a terminated process. -/
structure EngineWorker where
  id : Nat
  alive : Bool
deriving DecidableEq

/-- `get_engine`: `engine_pool.get()` on the FIFO queue.  No liveness check
is made; `none` is the blocked (empty-queue) case. -/
def get_engine : List EngineWorker → Option (EngineWorker × List EngineWorker)
  | [] => none
  | w :: ws => some (w, ws)

/-- `release_engine`: `engine_pool.put(engine)`, again with no liveness
check and no replacement. -/
def release_engine (w : EngineWorker) (pool : List EngineWorker) :
    List EngineWorker :=
  pool ++ [w]

/-- `engine.quit()` terminates the worker process. -/
def engineQuit (w : EngineWorker) : EngineWorker :=
  { w with alive := false }

/-- The `finally` block of `handle_game`: `engine.quit()` and then
`release_engine(engine)` — the worker is quit BEFORE being returned. -/
def sessionRelease (w : EngineWorker) (pool : List EngineWorker) :
    List EngineWorker :=
  release_engine (engineQuit w) pool

/-- Claim C2: evaluation at the failing input.  Starting from the pool of
two live workers built at startup, one session checks out worker 0 and
terminates: the `finally` block quits worker 0 and returns the dead handle
to the pool, and the second subsequent checkout hands that dead worker to a
session, with no replacement anywhere — refuting the replace-on-checkout /
replace-on-return behaviour of the claim. -/
theorem C2_dead_worker_reissued :
    get_engine [⟨0, true⟩, ⟨1, true⟩] = some (⟨0, true⟩, [⟨1, true⟩]) ∧
    sessionRelease ⟨0, true⟩ [⟨1, true⟩] = [⟨1, true⟩, ⟨0, false⟩] ∧
    get_engine [⟨1, true⟩, ⟨0, false⟩] = some (⟨1, true⟩, [⟨0, false⟩]) ∧
    get_engine [⟨0, false⟩] = some (⟨0, false⟩, []) ∧
    (⟨0, false⟩ : EngineWorker).alive = false :=
  ⟨rfl, rfl, rfl, rfl, rfl⟩

/-! ### Session Orchestrator: the handle_game event loop -/

/-- `bot_username` from Bot.py. -/
def botUsername : String := "indibot"

/-- Python `str.lower()`, modelled character-wise.  (`String.toLower`
itself is a byte-position loop that does not reduce definitionally, so the
embedding maps `Char.toLower` over the character list instead; the two
agree on every string.) -/
def pyLower (s : String) : String := ⟨s.data.map Char.toLower⟩

/-- The worker loop of Python `str.split()`: collect maximal runs of
non-space characters, dropping empty pieces. -/
def wordsAux : List Char → List Char → List String
  | [], acc => if acc = [] then [] else [String.mk acc.reverse]
  | c :: cs, acc =>
    if c = ' ' then
      if acc = [] then wordsAux cs []
      else String.mk acc.reverse :: wordsAux cs []
    else wordsAux cs (c :: acc)

/-- Python `str.split()`: split on whitespace runs, no empty pieces. -/
def pyWords (s : String) : List String := wordsAux s.data []

/-- The participants recorded from a gameFull event
(`event["white"]["id"]`, `event["black"]["id"]`). -/
structure GameDetails where
  whiteId : String
  blackId : String
deriving DecidableEq

/-- One inbound event of the per-game stream, restricted to the fields
Bot.py reads; absent fields carry the defaults that `event.get` supplies
(`wtime`/`btime` is `none` when absent or a datetime, `status` is `none`
when absent). -/
structure Event where
  type : String := ""
  username : String := ""
  text : String := ""
  room : String := "player"
  variantName : String := ""
  initialFen : String := ""
  whiteId : String := ""
  blackId : String := ""
  stateMoves : String := ""
  moves : String := ""
  wtime : Option Int := none
  btime : Option Int := none
  status : Option String := none
deriving DecidableEq

/-- The outbound client calls a session step can make. -/
inductive Action where
  | postMessage (room text : String)
  | makeMove (uci : String)
  | acceptDraw
  | declineDraw
deriving DecidableEq

/-- The loop-local state of `handle_game`: the board, the clock value in
milliseconds, the applied move history, and the stored gameFull event. -/
structure SessionState (Pos : Type) where
  board : Pos
  myRemainingTime : Int
  moveHistory : List String
  gameDetails : Option GameDetails
deriving DecidableEq

/-- The result of consuming one event: the new state, the outbound actions,
whether the loop breaks, and a ghost flag recording whether this step ran
the move pipeline (lines 298-304). -/
structure StepOut (Pos : Type) where
  state : SessionState Pos
  acts : List Action
  brk : Bool
  consulted : Bool
deriving DecidableEq

/-- COMMAND_RESPONSES. -/
def commandResponse (cmd : String) : Option String :=
  if cmd = "about" then
    some "This is a chess bot powered by Stockfish and Python. Created by @che947 and @treyop."
  else if cmd = "name" then some "My name is indibot."
  else if cmd = "motor" then some "I use the old Stockfish engine."
  else if cmd = "owner" then some "My owner is @wannabegmonce."
  else none

/-- COMMAND_REGEX applied to the stripped text: one marker character
`!`, `/` or `.` followed, case-insensitively, by a known command. -/
def matchCommand (text : String) : Option String :=
  let t := text.trim
  if t.take 1 = "!" ∨ t.take 1 = "/" ∨ t.take 1 = "." then
    let cmd := pyLower (t.drop 1)
    if cmd = "about" ∨ cmd = "name" ∨ cmd = "motor" ∨ cmd = "owner" then
      commandResponse cmd
    else none
  else none

/-- The chatLine branch: ignore the bot's own messages, answer a matched
command into the originating room, otherwise do nothing. -/
def chatPhase {Pos : Type} (st : SessionState Pos) (ev : Event) : StepOut Pos :=
  if pyLower ev.username ≠ pyLower botUsername then
    match matchCommand ev.text with
    | some response => ⟨st, [.postMessage ev.room response], false, false⟩
    | none => ⟨st, [], false, false⟩
  else ⟨st, [], false, false⟩

/-- The gameFull branch: rebuild the board from scratch (Chess960 from the
event's initialFen, anything else from the standard start), take the full
move list as the history, and replay it, skipping rejected moves. -/
def applyGameFull {Pos : Type} (api : ChessApi Pos) (ev : Event)
    (st : SessionState Pos) : SessionState Pos :=
  let b0 := if ev.variantName = "Chess960" then api.board960 ev.initialFen
            else api.initBoard
  let hist := pyWords ev.stateMoves
  let b := hist.foldl (fun b m => (api.pushUci b m).getD b) b0
  { board := b, myRemainingTime := st.myRemainingTime,
    moveHistory := hist, gameDetails := some ⟨ev.whiteId, ev.blackId⟩ }

/-- The per-move loop of the gameState branch: push each new move,
appending it to the history on success and skipping it on an exception. -/
def applyMovesWithHistory {Pos : Type} (api : ChessApi Pos) :
    Pos → List String → List String → Pos × List String
  | b, h, [] => (b, h)
  | b, h, m :: rest =>
    match api.pushUci b m with
    | some b2 => applyMovesWithHistory api b2 (h ++ [m]) rest
    | none => applyMovesWithHistory api b h rest

/-- The clock update of the gameState branch: take the reported time of the
side to move, when present. -/
def applyClock {Pos : Type} (api : ChessApi Pos) (ev : Event)
    (st : SessionState Pos) : SessionState Pos :=
  if api.turnWhite st.board then
    match ev.wtime with
    | some t => { st with myRemainingTime := t }
    | none => st
  else
    match ev.btime with
    | some t => { st with myRemainingTime := t }
    | none => st

/-- The gameState branch: apply the suffix of the cumulative move list
beyond the already-applied count — only when the move string is non-empty
and a gameFull has been seen — then update the clock. -/
def applyGameState {Pos : Type} (api : ChessApi Pos) (ev : Event)
    (st : SessionState Pos) : SessionState Pos :=
  applyClock api ev
    (if ev.moves ≠ "" ∧ st.gameDetails.isSome then
      { st with
          board := (applyMovesWithHistory api st.board st.moveHistory
            ((pyWords ev.moves).drop st.moveHistory.length)).1,
          moveHistory := (applyMovesWithHistory api st.board st.moveHistory
            ((pyWords ev.moves).drop st.moveHistory.length)).2 }
    else st)

/-- The offerDraw branch: decline before full-move 30, otherwise evaluate
and act on the score seen from the side to move; an `analyse` failure
(`none`) declines. -/
def drawPhase {Pos : Type} (api : ChessApi Pos) (st : SessionState Pos) :
    StepOut Pos :=
  if api.fullmoveNumber st.board < 30 then ⟨st, [.declineDraw], false, false⟩
  else
    match api.analyse st.board with
    | none => ⟨st, [.declineDraw], false, false⟩
    | some sc =>
      match (if api.turnWhite st.board then sc.white else sc.black) with
      | .mate _ => ⟨st, [.declineDraw], false, false⟩
      | .cp c =>
        if c ≤ 30 then ⟨st, [.acceptDraw], true, false⟩
        else ⟨st, [.declineDraw], false, false⟩

/-- `event.get("status") in ["mate", "resign", "draw", "outoftime"]`. -/
def terminalStatus (ev : Event) : Bool :=
  match ev.status with
  | some s => s == "mate" || s == "resign" || s == "draw" || s == "outoftime"
  | none => false

/-- The bot's colour from the stored details (`true` is white); `none` when
the bot is not a participant. -/
def botColorOf (d : GameDetails) : Option Bool :=
  if pyLower d.whiteId = pyLower botUsername then some true
  else if pyLower d.blackId = pyLower botUsername then some false
  else none

/-- The tail of the loop body (lines 279-317): identify the bot's colour
and, on the bot's turn, allocate a budget, run the pipeline and dispatch
its move, applying it locally when the push succeeds.  `consulted` is set
exactly on the paths that run the pipeline. -/
def turnPhase {Pos : Type} (api : ChessApi Pos) (inc : ℚ)
    (st : SessionState Pos) : StepOut Pos :=
  match st.gameDetails with
  | none => ⟨st, [], false, false⟩
  | some d =>
    match botColorOf d with
    | none => ⟨st, [], false, false⟩
    | some c =>
      if api.turnWhite st.board = c then
        match movePipeline api st.board
            (classic_ladder_think_time (st.myRemainingTime : ℚ) inc) with
        | some m =>
          match api.pushUci st.board m with
          | some b2 =>
            ⟨{ st with board := b2, moveHistory := st.moveHistory ++ [m] },
              [.makeMove m], false, true⟩
          | none => ⟨st, [.makeMove m], false, true⟩
        | none => ⟨st, [], false, true⟩
      else ⟨st, [], false, false⟩

/-- The state updates a gameFull / gameState event makes before the status
and turn checks; any other event leaves the state unchanged. -/
def midState {Pos : Type} (api : ChessApi Pos) (ev : Event)
    (st : SessionState Pos) : SessionState Pos :=
  if ev.type = "gameFull" then applyGameFull api ev st
  else if ev.type = "gameState" then applyGameState api ev st
  else st

/-- One iteration of the `handle_game` event loop over one inbound event:
chat handling, state reconstruction or delta application, draw
negotiation, the terminal-status check, and the own-turn move phase. -/
def gameStep {Pos : Type} (api : ChessApi Pos) (inc : ℚ) (ev : Event)
    (st : SessionState Pos) : StepOut Pos :=
  if ev.type = "chatLine" then chatPhase st ev
  else
    let st1 := midState api ev st
    if ev.type = "offerDraw" then drawPhase api st1
    else if terminalStatus ev then ⟨st1, [], true, false⟩
    else turnPhase api inc st1

/-! ### C7: full-state reconstruction is idempotent -/

/-- The move phase never touches the clock field. -/
lemma turnPhase_time {Pos : Type} (api : ChessApi Pos) (inc : ℚ)
    (st : SessionState Pos) :
    (turnPhase api inc st).state.myRemainingTime = st.myRemainingTime := by
  unfold turnPhase
  repeat' split
  all_goals rfl

/-- The gameFull branch reads nothing of the prior state but the clock. -/
lemma applyGameFull_congr {Pos : Type} (api : ChessApi Pos) (ev : Event)
    (st st2 : SessionState Pos)
    (ht : st.myRemainingTime = st2.myRemainingTime) :
    applyGameFull api ev st = applyGameFull api ev st2 := by
  unfold applyGameFull
  rw [ht]

/-- Two states with the same clock are treated identically by a gameFull
step. -/
lemma gameStep_gameFull_congr {Pos : Type} (api : ChessApi Pos) (inc : ℚ)
    (ev : Event) (st st2 : SessionState Pos) (h : ev.type = "gameFull")
    (ht : st.myRemainingTime = st2.myRemainingTime) :
    gameStep api inc ev st = gameStep api inc ev st2 := by
  have hc : ¬ ev.type = "chatLine" := by rw [h]; decide
  have ho : ¬ ev.type = "offerDraw" := by rw [h]; decide
  simp only [gameStep, midState, if_neg hc, if_pos h, if_neg ho,
    applyGameFull_congr api ev st st2 ht]

/-- A gameFull step preserves the clock field. -/
lemma gameStep_gameFull_time {Pos : Type} (api : ChessApi Pos) (inc : ℚ)
    (ev : Event) (st : SessionState Pos) (h : ev.type = "gameFull") :
    (gameStep api inc ev st).state.myRemainingTime = st.myRemainingTime := by
  have hc : ¬ ev.type = "chatLine" := by rw [h]; decide
  have ho : ¬ ev.type = "offerDraw" := by rw [h]; decide
  unfold gameStep midState
  rw [if_neg hc, if_pos h, if_neg ho]
  by_cases hts : terminalStatus ev = true
  · rw [if_pos hts]
    exact rfl
  · rw [if_neg hts, turnPhase_time]
    exact rfl

/-- Claim C7: processing the same gameFull snapshot twice yields exactly
the state produced by processing it once — the reconstruction starts from
scratch and depends on nothing mutable but the clock, which the step
preserves. -/
theorem C7_fullstate_idempotent {Pos : Type} (api : ChessApi Pos) (inc : ℚ)
    (ev : Event) (st : SessionState Pos) (h : ev.type = "gameFull") :
    gameStep api inc ev (gameStep api inc ev st).state =
      gameStep api inc ev st :=
  gameStep_gameFull_congr api inc ev _ st h
    (gameStep_gameFull_time api inc ev st h)

/-- A demo gameFull snapshot and a fresh session state. -/
def fullEvent : Event :=
  { type := "gameFull", whiteId := "indibot", blackId := "opponent",
    stateMoves := "e2e4 e7e5" }

/-- The session state as initialised at the top of handle_game. -/
def startState : SessionState DemoPos :=
  ⟨baseApi.initBoard, 300000, [], none⟩

/-- Claim C7, witness: the idempotence theorem applied to the demo
snapshot. -/
theorem C7_fullstate_idempotent_witness :
    gameStep baseApi 0 fullEvent (gameStep baseApi 0 fullEvent startState).state =
      gameStep baseApi 0 fullEvent startState :=
  C7_fullstate_idempotent baseApi 0 fullEvent startState rfl

/-! ### C5: when the pipeline is consulted -/

/-- The move phase consults the pipeline exactly when the stored details
name the bot as a participant and the side to move is the bot's colour. -/
lemma turnPhase_consulted {Pos : Type} (api : ChessApi Pos) (inc : ℚ)
    (st : SessionState Pos) :
    (turnPhase api inc st).consulted = true ↔
      ∃ d c, st.gameDetails = some d ∧ botColorOf d = some c ∧
        api.turnWhite st.board = c := by
  unfold turnPhase
  rcases hd : st.gameDetails with _ | d
  · simp
  · rcases hc : botColorOf d with _ | c
    · simp [hc]
    · by_cases ht : api.turnWhite st.board = c
      · simp only [hc, if_pos ht]
        rcases hm : movePipeline api st.board
            (classic_ladder_think_time (st.myRemainingTime : ℚ) inc) with _ | m
        · simp [hc, ht]
        · rcases hp : api.pushUci st.board m with _ | b2 <;> simp [hp, hc, ht]
      · have ht2 : ¬ c = api.turnWhite st.board := fun h2 => ht h2.symm
        simp [hc, ht, ht2]

/-- Claim C5, amended.  The pipeline is consulted exactly when: the event
is neither a chatLine nor an offerDraw, the event's status field is not
terminal, the (post-update) details name the bot as a participant and the
(post-update) side to move is the bot's colour.  The Position's own
game-over state is NOT part of the gate — see the counterexample. -/
theorem C5_turn_gate_amended {Pos : Type} (api : ChessApi Pos) (inc : ℚ)
    (ev : Event) (st : SessionState Pos) :
    (gameStep api inc ev st).consulted = true ↔
      (ev.type ≠ "chatLine" ∧ ev.type ≠ "offerDraw" ∧
        terminalStatus ev = false ∧
        ∃ d c, (midState api ev st).gameDetails = some d ∧
          botColorOf d = some c ∧
          api.turnWhite (midState api ev st).board = c) := by
  unfold gameStep
  by_cases hc : ev.type = "chatLine"
  · rw [if_pos hc]
    unfold chatPhase
    constructor
    · intro hfalse
      exfalso
      revert hfalse
      split
      · split <;> simp
      · simp
    · rintro ⟨hne, -⟩
      exact absurd hc hne
  · rw [if_neg hc]
    by_cases ho : ev.type = "offerDraw"
    · rw [if_pos ho]
      unfold drawPhase
      constructor
      · intro hfalse
        exfalso
        revert hfalse
        split
        · simp
        · split
          · simp
          · split
            · simp
            · split <;> simp
      · rintro ⟨-, hno, -⟩
        exact absurd ho hno
    · rw [if_neg ho]
      by_cases hts : terminalStatus ev = true
      · rw [if_pos hts]
        simp [hc, ho, hts]
      · rw [if_neg hts]
        rw [turnPhase_consulted]
        have hts2 : terminalStatus ev = false := by
          revert hts; cases terminalStatus ev <;> simp
        simp [hc, ho, hts2]

/-- A game-over demo position with white to move. -/
def overBoard : DemoPos := ⟨[], 32, true, true, 50⟩

/-- A session on the game-over position, bot playing white. -/
def overState : SessionState DemoPos :=
  ⟨overBoard, 60000, [], some ⟨"indibot", "opponent"⟩⟩

/-- A gameState event whose status field is not terminal. -/
def startedEvent : Event := { type := "gameState", status := some "started" }

/-- Claim C5, counterexample: the Position is game-over, yet the step
consults the pipeline, because only the event's status field is checked —
refuting "Position.turn == assigned color AND the position is not
game-over". -/
theorem C5_turn_gate_counterexample :
    (gameStep baseApi 0 startedEvent overState).consulted = true ∧
    baseApi.isGameOver overState.board = true := by
  constructor <;> decide

/-! ### C6: incremental delta application -/

/-- The clock update leaves the board untouched. -/
lemma applyClock_board {Pos : Type} (api : ChessApi Pos) (ev : Event)
    (st : SessionState Pos) : (applyClock api ev st).board = st.board := by
  unfold applyClock
  repeat' split
  all_goals rfl

/-- The clock update leaves the move history untouched. -/
lemma applyClock_history {Pos : Type} (api : ChessApi Pos) (ev : Event)
    (st : SessionState Pos) :
    (applyClock api ev st).moveHistory = st.moveHistory := by
  unfold applyClock
  repeat' split
  all_goals rfl

/-- Claim C6, amended.  After a gameFull has been seen, a delta whose
cumulative move list extends the applied history applies exactly the new
suffix, once; and a delta whose move list is NOT LONGER than the applied
history (a duplicate or stale delta) leaves board and history unchanged.
(A longer list that contradicts the applied prefix is nevertheless applied
from the applied count onward — see the counterexample — so the unchanged
guarantee needs the length condition, not mere non-extension.) -/
theorem C6_delta_amended {Pos : Type} (api : ChessApi Pos) (ev : Event)
    (st : SessionState Pos) :
    (∀ suffix, st.gameDetails.isSome = true →
      pyWords ev.moves = st.moveHistory ++ suffix → suffix ≠ [] →
      (applyGameState api ev st).board =
        (applyMovesWithHistory api st.board st.moveHistory suffix).1 ∧
      (applyGameState api ev st).moveHistory =
        (applyMovesWithHistory api st.board st.moveHistory suffix).2) ∧
    ((pyWords ev.moves).length ≤ st.moveHistory.length →
      (applyGameState api ev st).board = st.board ∧
      (applyGameState api ev st).moveHistory = st.moveHistory) := by
  constructor
  · intro suffix hdet hsplit hne
    have hmv : ev.moves ≠ "" := by
      intro h0
      rw [h0] at hsplit
      have : suffix = [] := by
        have := hsplit.symm
        simpa [pyWords, wordsAux] using List.append_eq_nil.mp this |>.2
      exact hne this
    unfold applyGameState
    rw [if_pos ⟨hmv, hdet⟩, hsplit, List.drop_left]
    rw [applyClock_board, applyClock_history]
    exact ⟨rfl, rfl⟩
  · intro hlen
    unfold applyGameState
    by_cases hcond : ev.moves ≠ "" ∧ st.gameDetails.isSome
    · rw [if_pos hcond]
      have hdrop : (pyWords ev.moves).drop st.moveHistory.length = [] :=
        List.drop_eq_nil_of_le hlen
      rw [hdrop]
      rw [applyClock_board, applyClock_history]
      exact ⟨rfl, rfl⟩
    · rw [if_neg hcond]
      rw [applyClock_board, applyClock_history]
      exact ⟨rfl, rfl⟩

/-- A session that has not yet received game details. -/
def noDetailsState : SessionState DemoPos :=
  ⟨baseApi.initBoard, 300000, [], none⟩

/-- An extending delta with two new moves. -/
def extendEvent : Event := { type := "gameState", moves := "e2e4 e7e5" }

/-- A board on which "e2e4" has been applied, with matching history. -/
def e4Board : DemoPos := ⟨["e2e4"], 32, false, true, 1⟩

/-- The same position with game details present. -/
def e4State : SessionState DemoPos :=
  ⟨e4Board, 300000, ["e2e4"], some ⟨"indibot", "opponent"⟩⟩

/-- A delta that disagrees with the applied prefix ("d2d4" was never
applied here) but is longer than the history. -/
def mismatchEvent : Event := { type := "gameState", moves := "d2d4 d7d5" }

/-- Claim C6, counterexample.  Two refutations: (1) before any gameFull
event, an extending delta is NOT applied at all (the branch requires
`game_details`), so "only the suffix ... is applied exactly once" fails;
(2) a delta that does not extend the applied prefix (its first move
differs) but is longer still mutates the Position — the second move
"d7d5" is pushed onto the "e2e4" board — so "leaves the Position
unchanged" fails. -/
theorem C6_delta_counterexample :
    ((applyGameState baseApi extendEvent noDetailsState).board =
        noDetailsState.board ∧
      noDetailsState.gameDetails = none ∧
      pyWords extendEvent.moves =
        noDetailsState.moveHistory ++ ["e2e4", "e7e5"]) ∧
    ((applyGameState baseApi mismatchEvent e4State).board.stack =
        ["e2e4", "d7d5"] ∧
      e4State.board.stack = ["e2e4"] ∧
      (pyWords mismatchEvent.moves).take e4State.moveHistory.length ≠
        e4State.moveHistory) := by
  refine ⟨⟨?_, rfl, ?_⟩, ?_, rfl, ?_⟩ <;> decide

/-- Claim C6, witness: the amended theorem applied to an extending delta on
the e4 position (suffix `["e7e5"]`) and to a duplicate delta. -/
theorem C6_delta_witness :
    ((applyGameState baseApi extendEvent e4State).board =
        (applyMovesWithHistory baseApi e4State.board e4State.moveHistory
          ["e7e5"]).1 ∧
      (applyGameState baseApi extendEvent e4State).moveHistory =
        (applyMovesWithHistory baseApi e4State.board e4State.moveHistory
          ["e7e5"]).2) ∧
    ((applyGameState baseApi { type := "gameState", moves := "e2e4" }
        e4State).board = e4State.board ∧
      (applyGameState baseApi { type := "gameState", moves := "e2e4" }
        e4State).moveHistory = e4State.moveHistory) :=
  ⟨(C6_delta_amended baseApi extendEvent e4State).1 ["e7e5"] (by decide)
      (by decide) (by decide),
    (C6_delta_amended baseApi { type := "gameState", moves := "e2e4" }
      e4State).2 (by decide)⟩

/-! ### C8: draw negotiation at or past full-move 30 -/

/-- Claim C8, amended.  On an offerDraw event at or past full-move 30 the
step runs exactly the draw branch on the unchanged state, and that branch:
declines when `analyse` fails; declines on ANY mate indication (for either
side); accepts — and ends the session — exactly when the centipawn score
from the SIDE TO MOVE's point of view is at most the 30 cp threshold
(including exactly at it); declines otherwise.  The side to move's point
of view coincides with the agent's only when the offer arrives on the
agent's turn — the agent's colour is never consulted here, see the
counterexample. -/
theorem C8_draw_amended {Pos : Type} (api : ChessApi Pos) (inc : ℚ)
    (ev : Event) (st : SessionState Pos) (hty : ev.type = "offerDraw")
    (h30 : 30 ≤ api.fullmoveNumber st.board) :
    gameStep api inc ev st = drawPhase api st ∧
    (api.analyse st.board = none →
      drawPhase api st = ⟨st, [.declineDraw], false, false⟩) ∧
    (∀ sc n, api.analyse st.board = some sc →
      (if api.turnWhite st.board then sc.white else sc.black) = .mate n →
      drawPhase api st = ⟨st, [.declineDraw], false, false⟩) ∧
    (∀ sc c, api.analyse st.board = some sc →
      (if api.turnWhite st.board then sc.white else sc.black) = .cp c →
      c ≤ 30 → drawPhase api st = ⟨st, [.acceptDraw], true, false⟩) ∧
    (∀ sc c, api.analyse st.board = some sc →
      (if api.turnWhite st.board then sc.white else sc.black) = .cp c →
      30 < c → drawPhase api st = ⟨st, [.declineDraw], false, false⟩) := by
  have hnl : ¬ api.fullmoveNumber st.board < 30 := not_lt.mpr h30
  refine ⟨?_, ?_, ?_, ?_, ?_⟩
  · have hc : ¬ ev.type = "chatLine" := by rw [hty]; decide
    have hf : ¬ ev.type = "gameFull" := by rw [hty]; decide
    have hs : ¬ ev.type = "gameState" := by rw [hty]; decide
    unfold gameStep midState
    rw [if_neg hc, if_neg hf, if_neg hs, if_pos hty]
  · intro han
    simp only [drawPhase, if_neg hnl, han]
  · intro sc n han hpov
    simp only [drawPhase, if_neg hnl, han, hpov]
  · intro sc c han hpov hle
    simp only [drawPhase, if_neg hnl, han, hpov, if_pos hle]
  · intro sc c han hpov hgt
    simp only [drawPhase, if_neg hnl, han, hpov, if_neg (not_le.mpr hgt)]

/-- Demo interface whose evaluation is exactly the 30 cp threshold for the
side to move. -/
def thresholdApi : ChessApi DemoPos :=
  { baseApi with analyse := fun _ => some ⟨.cp 30, .cp (-30)⟩ }

/-- A full-move-35 position, white to move. -/
def m35Board : DemoPos := ⟨[], 20, false, true, 35⟩

/-- The session on that position; the bot plays black. -/
def m35State : SessionState DemoPos :=
  ⟨m35Board, 60000, [], some ⟨"opponent", "indibot"⟩⟩

/-- A draw offer event. -/
def drawEvent : Event := { type := "offerDraw" }

/-- Claim C8, witness: an evaluation exactly at the threshold is accepted
and the session ends. -/
theorem C8_draw_witness :
    gameStep thresholdApi 0 drawEvent m35State =
      drawPhase thresholdApi m35State ∧
    drawPhase thresholdApi m35State =
      ⟨m35State, [.acceptDraw], true, false⟩ := by
  obtain ⟨h1, -, -, h4, -⟩ :=
    C8_draw_amended thresholdApi 0 drawEvent m35State rfl (by decide)
  exact ⟨h1, h4 ⟨.cp 30, .cp (-30)⟩ 30 rfl rfl (by decide)⟩

/-- Demo interface reporting +500 cp for white, hence −500 cp for black. -/
def skewedApi : ChessApi DemoPos :=
  { baseApi with analyse := fun _ => some ⟨.cp 500, .cp (-500)⟩ }

/-- Claim C8, counterexample.  The offer arrives with white to move while
the agent plays black: the agent's signed evaluation is −500 cp, far
within the acceptance threshold, yet the code evaluates from the side to
move's (white's) point of view, sees +500 cp, and DECLINES — refuting
"accepts if and only if the signed evaluation for this agent is within the
centipawn tolerance". -/
theorem C8_draw_pov_counterexample :
    (gameStep skewedApi 0 drawEvent m35State).acts = [.declineDraw] ∧
    (gameStep skewedApi 0 drawEvent m35State).brk = false ∧
    m35State.gameDetails = some ⟨"opponent", "indibot"⟩ ∧
    botColorOf ⟨"opponent", "indibot"⟩ = some false ∧
    skewedApi.analyse m35State.board = some ⟨.cp 500, .cp (-500)⟩ ∧
    ((-500 : Int) ≤ 30) := by
  refine ⟨?_, ?_, rfl, ?_, rfl, ?_⟩ <;> decide

/-! ### Challenge Gatekeeper (listen_for_challenges) -/

/-- One incoming challenge proposal, with the fields the listener reads;
`rated` is `none` when absent (`challenge.get("rated", True)` defaults to
rated). -/
structure ChallengeEvent where
  challengerId : String := ""
  challengeId : String := ""
  variantKey : String := ""
  rated : Option Bool := none
  limit : Int := 0
  increment : Int := 0
deriving DecidableEq

/-- The outbound calls the challenge listener can make. -/
inductive ChallengeAction where
  | acceptChallenge (id : String)
  | declineChallenge (id : String)
deriving DecidableEq

/-- The per-challenge body of `listen_for_challenges`: a disallowed
variant or a rated game is skipped with a log line only; then the
time-control map is written; an out-of-window time control or a
self-challenge is likewise skipped; only a fully accepted challenge
produces an outbound call.  `decline_challenge` is never called. -/
def challengeStep (timeControls : List (String × Int × Int))
    (c : ChallengeEvent) :
    List ChallengeAction × List (String × Int × Int) :=
  if ¬ (c.variantKey = "standard" ∨ c.variantKey = "chess960") then
    ([], timeControls)
  else if c.rated.getD true then ([], timeControls)
  else
    let tc2 := (c.challengeId, c.limit, c.increment) :: timeControls
    if ¬ (30 ≤ c.limit ∧ c.limit ≤ 300 ∧ c.increment ≤ 0) then ([], tc2)
    else if pyLower c.challengerId = pyLower botUsername then ([], tc2)
    else ([.acceptChallenge c.challengeId], tc2)

/-- Claim C10: a proposal that fails the acceptance policy — disallowed
variant, rated flag set (or absent, which defaults to rated), or
out-of-window time control — produces no outbound action at all; in
particular no decline-challenge call is ever sent. -/
theorem C10_no_decline (timeControls : List (String × Int × Int))
    (c : ChallengeEvent)
    (h : ¬ (c.variantKey = "standard" ∨ c.variantKey = "chess960") ∨
      c.rated.getD true = true ∨
      ¬ (30 ≤ c.limit ∧ c.limit ≤ 300 ∧ c.increment ≤ 0)) :
    (challengeStep timeControls c).1 = [] := by
  unfold challengeStep
  by_cases hv : ¬ (c.variantKey = "standard" ∨ c.variantKey = "chess960")
  · rw [if_pos hv]
  · rw [if_neg hv]
    by_cases hr : c.rated.getD true = true
    · rw [if_pos hr]
    · rw [if_neg hr]
      rcases h with h | h | h
    
      · exact absurd h hv
      · exact absurd h hr
      · rw [if_pos h]

/-- Claim C10, witness: a rated standard challenge in the window produces
no action. -/
theorem C10_no_decline_witness :
    (challengeStep []
      { challengerId := "someone", challengeId := "abc",
        variantKey := "standard", rated := some true,
        limit := 60, increment := 0 }).1 = [] :=
  C10_no_decline []
    { challengerId := "someone", challengeId := "abc",
      variantKey := "standard", rated := some true,
      limit := 60, increment := 0 }
    (Or.inr (Or.inl rfl))

end Indibot
